import Mathlib

/-!
Verification of the Aura calendar scheduling engine and its client cache layer.

The cache layer (`getCachedData` / `setCachedData`) is embedded from the
TypeScript source in `packages/ui/app/routes/api.v1.chat.stream.ts`:
the backing `localStorage` record of `CacheEntry` objects is modelled as a
function from string keys to optional entries, and `Date.now()` is passed
explicitly as an integer `now` parameter (milliseconds).  Fallible
`localStorage` / JSON operations are modelled in `Except`, with the
source's `try/catch` wrappers reproduced by `getCachedDataSafe` /
`setCachedDataSafe`.

The scheduling engine (ConflictDetector / FreeSlotFinder) is not present in
the repository snapshot; it is modelled from the specification (sections 4.3
and 4.4), with instants as integer minutes in a single reference timezone.
-/

namespace Aura

/-- A cache entry, as in the TypeScript `CacheEntry<T>` type:
`{ data, timestamp, ttl }` with `timestamp` the `Date.now()` at store time
and `ttl` in milliseconds. -/
structure CacheEntry (α : Type) where
  data : α
  timestamp : Int
  ttl : Int
deriving DecidableEq

/-- The parsed `localStorage` record `CacheStore = Record<string, CacheEntry>`,
modelled as a partial map from keys to entries. -/
def CacheStore (α : Type) : Type := String → Option (CacheEntry α)

/-- Embeds `getCachedData` from `api.v1.chat.stream.ts` (happy path, no
storage failure).  Returns the looked-up value together with the store left
behind in `localStorage`: an entry is expired when `now - timestamp > ttl`,
in which case it is deleted and `null` is returned. -/
def getCachedData {α : Type} (store : CacheStore α) (key : String) (now : Int) :
    Option α × CacheStore α :=
  match store key with
  | none => (none, store)
  | some entry =>
    if entry.ttl < now - entry.timestamp then
      (none, fun k => if k = key then none else store k)
    else
      (some entry.data, store)

/-- Embeds `setCachedData` from `api.v1.chat.stream.ts` (happy path):
stores `{ data, timestamp := now, ttl }` under `key`, leaving every other
key untouched. -/
def setCachedData {α : Type} (store : CacheStore α) (key : String) (data : α)
    (ttlMs : Int) (now : Int) : CacheStore α :=
  fun k => if k = key then some ⟨data, now, ttlMs⟩ else store k

/-- Which of the two fallible `localStorage` interactions throw:
`readFails` covers `localStorage.getItem` / `JSON.parse`, `writeFails`
covers `localStorage.setItem` / `JSON.stringify`. -/
structure StorageBehavior where
  readFails : Bool
  writeFails : Bool
deriving DecidableEq

/-- `localStorage.getItem` + `JSON.parse`, which may throw. -/
def readStoreE {α : Type} (beh : StorageBehavior) (store : CacheStore α) :
    Except String (CacheStore α) :=
  match beh.readFails with
  | true => .error "storage read failed"
  | false => .ok store

/-- `JSON.stringify` + `localStorage.setItem`, which may throw. -/
def writeStoreE (beh : StorageBehavior) : Except String Unit :=
  match beh.writeFails with
  | true => .error "storage write failed"
  | false => .ok ()

/-- `getCachedData` with its fallible storage interactions made explicit;
an `Except.error` is an exception reaching the source's `catch` block. -/
def getCachedDataE {α : Type} (beh : StorageBehavior) (store : CacheStore α)
    (key : String) (now : Int) : Except String (Option α × CacheStore α) :=
  match readStoreE beh store with
  | .error err => .error err
  | .ok cache =>
    match cache key with
    | none => .ok (none, cache)
    | some entry =>
      if entry.ttl < now - entry.timestamp then
        match writeStoreE beh with
        | .error err => .error err
        | .ok _ => .ok (none, fun k => if k = key then none else cache k)
      else
        .ok (some entry.data, cache)

/-- The source's `try { ... } catch { warn }; return null` around
`getCachedData`: an exception leaves `localStorage` as it was and the
function returns `null`. -/
def getCachedDataSafe {α : Type} (beh : StorageBehavior) (store : CacheStore α)
    (key : String) (now : Int) : Option α × CacheStore α :=
  match getCachedDataE beh store key now with
  | .ok r => r
  | .error _ => (none, store)

/-- `setCachedData` with its fallible storage interactions made explicit. -/
def setCachedDataE {α : Type} (beh : StorageBehavior) (store : CacheStore α)
    (key : String) (data : α) (ttlMs : Int) (now : Int) :
    Except String (CacheStore α) :=
  match readStoreE beh store with
  | .error err => .error err
  | .ok cache =>
    match writeStoreE beh with
    | .error err => .error err
    | .ok _ => .ok (fun k => if k = key then some ⟨data, now, ttlMs⟩ else cache k)

/-- The source's `try { ... } catch { warn }` around `setCachedData`:
an exception leaves `localStorage` as it was (the value is simply not
cached) and the function still returns normally. -/
def setCachedDataSafe {α : Type} (beh : StorageBehavior) (store : CacheStore α)
    (key : String) (data : α) (ttlMs : Int) (now : Int) : CacheStore α :=
  match setCachedDataE beh store key data ttlMs now with
  | .ok s => s
  | .error _ => store

theorem getCachedData_eq_of_some {α : Type} {store : CacheStore α} {key : String}
    {e : CacheEntry α} (now : Int) (h : store key = some e) :
    getCachedData store key now =
      if e.ttl < now - e.timestamp then
        (none, fun k => if k = key then none else store k)
      else
        (some e.data, store) := by
  unfold getCachedData
  rw [h]

theorem getCachedData_eq_of_none {α : Type} {store : CacheStore α} {key : String}
    (now : Int) (h : store key = none) :
    getCachedData store key now = (none, store) := by
  unfold getCachedData
  rw [h]

/-- A store holding a single entry `{data := 42, timestamp := 0, ttl := 10}`
under key `"k"`, used to exercise the expiry boundary. -/
def storeC2 : CacheStore Nat :=
  fun k => if k = "k" then some ⟨42, 0, 10⟩ else none

/-- C2 (counterexample): at `now = storedAt + ttl` — here `now = 10`,
`storedAt = 0`, `ttl = 10` — the claim says `get` returns absent, but the
code's expiry test is strict (`now - timestamp > ttl`), so the value is
still returned; and with a negative `ttl` the claimed unconditional
round-trip fails, since the entry is expired the instant it is stored. -/
theorem getCachedData_boundary_counterexample :
    ((0 : Int) + 10 ≤ 10 ∧ (getCachedData storeC2 "k" 10).1 = some 42) ∧
    (getCachedData (setCachedData (fun _ => none : CacheStore Nat) "k" 7 (-1) 3)
        "k" 3).1 = none := by
  refine ⟨⟨by decide, rfl⟩, rfl⟩

/-- C2 (amended): `set(k, v, ttl)` immediately followed by `get(k)` returns
`v` whenever `ttl ≥ 0`; and an entry is valid only while
`now ≤ storedAt + ttl` — once `now > storedAt + ttl` it is treated as
absent and never returned. -/
theorem cache_roundTrip_and_expiry {α : Type} (store : CacheStore α) (key : String)
    (v : α) (ttlMs now : Int) :
    (0 ≤ ttlMs →
      (getCachedData (setCachedData store key v ttlMs now) key now).1 = some v) ∧
    (∀ e : CacheEntry α, store key = some e → e.timestamp + e.ttl < now →
      (getCachedData store key now).1 = none) := by
  constructor
  · intro httl
    have hk : setCachedData store key v ttlMs now key = some ⟨v, now, ttlMs⟩ := by
      unfold setCachedData
      simp
    rw [getCachedData_eq_of_some now hk]
    have hc : ¬ ((⟨v, now, ttlMs⟩ : CacheEntry α).ttl <
        now - (⟨v, now, ttlMs⟩ : CacheEntry α).timestamp) := by
      show ¬ (ttlMs < now - now)
      omega
    rw [if_neg hc]
  · intro e he hexp
    rw [getCachedData_eq_of_some now he]
    rw [if_pos (by omega)]

/-- C2 (witness): the amended round-trip and expiry facts at concrete
inputs. -/
theorem cache_roundTrip_and_expiry_witness :
    (getCachedData (setCachedData (fun _ => none : CacheStore Nat) "k" 7 5 3) "k" 3).1
        = some 7 ∧
    (getCachedData storeC2 "k" 11).1 = none :=
  ⟨(cache_roundTrip_and_expiry (fun _ => none) "k" 7 5 3).1 (by decide),
   (cache_roundTrip_and_expiry storeC2 "k" 7 5 11).2 ⟨42, 0, 10⟩ rfl (by decide)⟩

/-- C9: storage failures never propagate out of the cache layer.  If
reading or writing `localStorage` throws, `setCachedDataSafe` still returns
normally and the value is simply not cached (the store is unchanged); if
reading throws, `getCachedDataSafe` returns absent with the store
unchanged; and with no failure both agree with the happy-path functions. -/
theorem cache_failures_never_propagate {α : Type} (beh : StorageBehavior)
    (store : CacheStore α) (key : String) (v : α) (ttlMs now : Int) :
    (beh.readFails = true ∨ beh.writeFails = true →
      setCachedDataSafe beh store key v ttlMs now = store) ∧
    (beh.readFails = true →
      getCachedDataSafe beh store key now = (none, store)) ∧
    (beh.readFails = false → beh.writeFails = false →
      setCachedDataSafe beh store key v ttlMs now = setCachedData store key v ttlMs now ∧
      getCachedDataSafe beh store key now = getCachedData store key now) := by
  refine ⟨?_, ?_, ?_⟩
  · intro hfail
    obtain ⟨br, bw⟩ := beh
    rcases hfail with h | h
    · replace h : br = true := h
      subst h
      rfl
    · replace h : bw = true := h
      subst h
      cases br
      · rfl
      · rfl
  · intro h
    obtain ⟨br, bw⟩ := beh
    replace h : br = true := h
    subst h
    rfl
  · intro hr hw
    obtain ⟨br, bw⟩ := beh
    replace hr : br = false := hr
    replace hw : bw = false := hw
    subst hr
    subst hw
    refine ⟨rfl, ?_⟩
    dsimp only [getCachedDataSafe, getCachedDataE, readStoreE, writeStoreE]
    cases hsk : store key with
    | none =>
      rw [getCachedData_eq_of_none now hsk]
    | some e =>
      rw [getCachedData_eq_of_some now hsk]
      by_cases hexp : e.ttl < now - e.timestamp
      · simp only [if_pos hexp]
      · simp only [if_neg hexp]

/-- C9 (witness): with a read failure, `set` leaves the store unchanged and
`get` returns absent, at concrete inputs. -/
theorem cache_failures_never_propagate_witness :
    setCachedDataSafe ⟨true, false⟩ storeC2 "k" 9 5 0 = storeC2 ∧
    getCachedDataSafe ⟨true, false⟩ storeC2 "k" 0 = (none, storeC2) :=
  ⟨(cache_failures_never_propagate ⟨true, false⟩ storeC2 "k" 9 5 0).1 (Or.inl rfl),
   (cache_failures_never_propagate ⟨true, false⟩ storeC2 "k" 9 5 0).2.1 rfl⟩

/-- C10: an expired hit for key `k` deletes exactly that entry and returns
absent, leaving every other key's entry unchanged; a `get` for an absent
key returns absent with the whole store unchanged. -/
theorem getCachedData_frame (store : CacheStore Nat) (key : String) (now : Int) :
    (store key = none → getCachedData store key now = (none, store)) ∧
    (∀ e : CacheEntry Nat, store key = some e → e.timestamp + e.ttl < now →
      (getCachedData store key now).1 = none ∧
      (getCachedData store key now).2 key = none ∧
      ∀ k, k ≠ key → (getCachedData store key now).2 k = store k) := by
  constructor
  · intro h
    exact getCachedData_eq_of_none now h
  · intro e he hexp
    rw [getCachedData_eq_of_some now he, if_pos (by omega)]
    refine ⟨rfl, by simp, ?_⟩
    intro k hk
    simp [hk]

/-- C10 (witness): at `now = 11` the entry of `storeC2` under `"k"`
(stored at 0 with ttl 10) is expired: `get` deletes it, returns absent,
and leaves the other key `"other"` unchanged. -/
theorem getCachedData_frame_witness :
    (getCachedData storeC2 "k" 11).1 = none ∧
    (getCachedData storeC2 "k" 11).2 "k" = none ∧
    (getCachedData storeC2 "k" 11).2 "other" = storeC2 "other" := by
  have h := (getCachedData_frame storeC2 "k" 11).2 ⟨42, 0, 10⟩ rfl (by decide)
  exact ⟨h.1, h.2.1, h.2.2 "other" (by decide)⟩

/-- Modelled from the spec: the `Event` record of section 3, for the
ConflictDetector and FreeSlotFinder whose implementation is absent from the
repository snapshot.  `start` and `stop` (the spec's `end`) are instants in
minutes, already normalized to the single reference timezone; the opaque
display metadata (`title`, `location`, ...) is omitted as it is never read
by the engine. -/
structure Event where
  id : String
  sourceCalendar : String
  start : Int
  stop : Int
  isAllDay : Bool
deriving DecidableEq

/-- Modelled from the spec: the `TimeWindow` record `{start, end}` of
section 3 (`stop` is the spec's `end`). -/
structure TimeWindow where
  start : Int
  stop : Int
deriving DecidableEq

/-- Ascending-by-`start` order used for the sorted conflict list. -/
def eventLE (a b : Event) : Prop := a.start ≤ b.start

instance : DecidableRel eventLE := fun a b => Int.decLe a.start b.start

instance : IsTotal Event eventLE := ⟨fun a b => Int.le_total a.start b.start⟩

instance : IsTrans Event eventLE := ⟨fun _ _ _ => Int.le_trans⟩

/-- Modelled from the spec: step 3 of the ConflictDetector algorithm
(section 4.3) — drop the event whose id equals `excludeEventId`, when
provided. -/
def excludeFilter (x : Option String) (l : List Event) : List Event :=
  match x with
  | some ex => l.filter fun e => !(e.id == ex)
  | none => l

/-- Modelled from the spec: `findConflicts` of section 4.3, whose
implementation is absent from the repository snapshot.  The aggregated
timeline is passed in as `events`; all-day events are dropped, the excluded
id is dropped, an event conflicts iff `e.start < c.end ∧ e.end > c.start`,
and the result is sorted ascending by `start`. -/
def findConflicts (events : List Event) (c : TimeWindow)
    (excludeEventId : Option String) : List Event :=
  List.insertionSort eventLE
    ((excludeFilter excludeEventId (events.filter fun e => !e.isAllDay)).filter
      fun e => decide (e.start < c.stop) && decide (c.start < e.stop))

theorem mem_excludeFilter {x : Option String} {l : List Event} {e : Event} :
    e ∈ excludeFilter x l ↔ e ∈ l ∧ ∀ ex, x = some ex → e.id ≠ ex := by
  cases x with
  | none => simp [excludeFilter]
  | some ex =>
    simp only [excludeFilter, List.mem_filter, Bool.not_eq_eq_eq_not, Bool.not_true,
      beq_eq_false_iff_ne, ne_eq]
    constructor
    · rintro ⟨hm, hne⟩
      exact ⟨hm, fun y hy => by cases hy; exact hne⟩
    · rintro ⟨hm, hall⟩
      exact ⟨hm, hall ex rfl⟩

theorem mem_findConflicts {events : List Event} {c : TimeWindow}
    {x : Option String} {e : Event} :
    e ∈ findConflicts events c x ↔
      e ∈ events ∧ e.isAllDay = false ∧ (∀ ex, x = some ex → e.id ≠ ex) ∧
        e.start < c.stop ∧ c.start < e.stop := by
  unfold findConflicts
  rw [(List.perm_insertionSort eventLE _).mem_iff]
  simp only [List.mem_filter, mem_excludeFilter, List.mem_filter,
    Bool.not_eq_eq_eq_not, Bool.not_true, Bool.and_eq_true, decide_eq_true_eq]
  tauto

/-- C1: with no exclusion, `findConflicts` reports an event `e` iff `e` is
in the timeline, is not all-day, and overlaps the candidate `c` in the open
sense `e.start < c.end ∧ e.end > c.start`; in particular events touching
the candidate (back-to-back) are never reported. -/
theorem findConflicts_iff_open_overlap (events : List Event) (c : TimeWindow)
    (e : Event) :
    (e ∈ findConflicts events c none ↔
      e ∈ events ∧ e.isAllDay = false ∧ e.start < c.stop ∧ c.start < e.stop) ∧
    (e.stop = c.start ∨ e.start = c.stop → e ∉ findConflicts events c none) := by
  constructor
  · rw [mem_findConflicts]
    constructor
    · rintro ⟨hm, had, -, hov⟩
      exact ⟨hm, had, hov⟩
    · rintro ⟨hm, had, hov⟩
      refine ⟨hm, had, ?_, hov⟩
      intro ex hex
      exact Option.noConfusion hex
  · intro htouch hmem
    rw [mem_findConflicts] at hmem
    omega

/-- C1 (witness): a concrete overlapping event is reported, and a
back-to-back event is not. -/
theorem findConflicts_iff_open_overlap_witness :
    (⟨"a", "primary", 570, 630, false⟩ : Event) ∈
        findConflicts [⟨"a", "primary", 570, 630, false⟩] ⟨600, 660⟩ none ∧
    (⟨"b", "primary", 540, 600, false⟩ : Event) ∉
        findConflicts [⟨"b", "primary", 540, 600, false⟩] ⟨600, 660⟩ none :=
  ⟨(findConflicts_iff_open_overlap _ ⟨600, 660⟩ _).1.mpr
      ⟨by decide, by decide, by decide, by decide⟩,
   (findConflicts_iff_open_overlap _ ⟨600, 660⟩ _).2 (Or.inl (by decide))⟩

/-- C3: all-day events are never reported as conflicts, whatever the
overlap and the exclusion id. -/
theorem findConflicts_excludes_allDay (events : List Event) (c : TimeWindow)
    (x : Option String) (e : Event) (h : e.isAllDay = true) :
    e ∉ findConflicts events c x := by
  intro hmem
  rw [mem_findConflicts] at hmem
  rw [h] at hmem
  exact absurd hmem.2.1 (by simp)

/-- C3 (witness): an all-day event fully covering the candidate window is
not reported. -/
theorem findConflicts_excludes_allDay_witness :
    (⟨"holiday", "primary", 0, 1440, true⟩ : Event) ∉
      findConflicts [⟨"holiday", "primary", 0, 1440, true⟩] ⟨600, 660⟩ none :=
  findConflicts_excludes_allDay _ ⟨600, 660⟩ none _ rfl

/-- C4: an event whose id equals `excludeEventId` is never reported, and
when the excluded id matches no event of the timeline, the result is
identical to the one with no exclusion (no error). -/
theorem findConflicts_exclusion (events : List Event) (c : TimeWindow)
    (x : String) :
    (∀ e : Event, e.id = x → e ∉ findConflicts events c (some x)) ∧
    ((∀ e ∈ events, e.id ≠ x) →
      findConflicts events c (some x) = findConflicts events c none) := by
  constructor
  · intro e hid hmem
    rw [mem_findConflicts] at hmem
    exact hmem.2.2.1 x rfl hid
  · intro hnone
    have hself : (events.filter fun e => !e.isAllDay).filter (fun e => !(e.id == x)) =
        events.filter fun e => !e.isAllDay := by
      rw [List.filter_eq_self]
      intro e he
      have := hnone e (List.mem_filter.mp he).1
      simpa using this
    unfold findConflicts excludeFilter
    dsimp only
    rw [hself]

/-- C4 (witness): the event being updated is excluded from its own
conflicts, and an unmatched exclusion id changes nothing. -/
theorem findConflicts_exclusion_witness :
    ((⟨"a", "primary", 570, 630, false⟩ : Event) ∉
        findConflicts [⟨"a", "primary", 570, 630, false⟩] ⟨600, 660⟩ (some "a")) ∧
    findConflicts [(⟨"a", "primary", 570, 630, false⟩ : Event)] ⟨600, 660⟩ (some "zzz") =
      findConflicts [(⟨"a", "primary", 570, 630, false⟩ : Event)] ⟨600, 660⟩ none :=
  ⟨(findConflicts_exclusion [⟨"a", "primary", 570, 630, false⟩] ⟨600, 660⟩ "a").1 _ rfl,
   (findConflicts_exclusion [⟨"a", "primary", 570, 630, false⟩] ⟨600, 660⟩ "zzz").2
      (by decide)⟩

/-- Modelled from the spec: the time-of-day preference of section 4.4
(`noPref` is the spec's `none`). -/
inductive Preference where
  | noPref
  | morning
  | afternoon
  | evening
deriving DecidableEq

/-- Modelled from the spec: a gap between `dailyBounds.earliest` and the
first event, between consecutive events, or between the last event and
`dailyBounds.latest` (section 4.4 step 3), annotated with its bounding
events. -/
structure Gap where
  start : Int
  stop : Int
  prec : Option Event
  foll : Option Event
deriving DecidableEq

/-- Modelled from the spec: the Candidate Slot record of section 3 —
`{start, end, precedingEvent?, followingEvent?, score}`. -/
structure Slot where
  start : Int
  stop : Int
  score : Int
  precedingEvent : Option Event
  followingEvent : Option Event
deriving DecidableEq

/-- Modelled from the spec: the FreeSlotFinder error taxonomy entry
relevant here — InvalidInput of section 7. -/
inductive SlotError where
  | invalidInput
deriving DecidableEq

/-- Modelled from the spec: the gap-walk of section 4.4 step 3 — starting
from a cursor at `dailyBounds.earliest`, emit the gap before each event
and advance the cursor past it, ending with the gap up to
`dailyBounds.latest`. -/
def gapsWalk (cursor : Int) (prec : Option Event) (es : List Event)
    (dayStop : Int) : List Gap :=
  match es with
  | [] => [⟨cursor, dayStop, prec, none⟩]
  | e :: rest => ⟨cursor, e.start, prec, some e⟩ :: gapsWalk (max cursor e.stop) (some e) rest dayStop

/-- Modelled from the spec: the non-all-day events relevant to one day's
bounded segment, sorted ascending by start (section 4.4 step 2 plus the
sorted-timeline invariant of section 4.2). -/
def dayEvents (events : List Event) (dayStart dayStop : Int) : List Event :=
  List.insertionSort eventLE
    (events.filter fun e =>
      !e.isAllDay && decide (e.start < dayStop) && decide (dayStart < e.stop))

/-- Modelled from the spec: the preferred period test of section 4.4
step 6 — morning is before 12:00, afternoon 12:00–17:00, evening after
17:00 (minutes of day). -/
def inBand (p : Preference) (t : Int) : Bool :=
  match p with
  | .noPref => true
  | .morning => decide (t < 720)
  | .afternoon => decide (720 ≤ t) && decide (t < 1020)
  | .evening => decide (1020 ≤ t)

/-- Modelled from the spec: a slot's midpoint reduced to minutes within
its day. -/
def slotMidpointTime (s t : Int) : Int := (Int.fdiv (s + t) 2).emod 1440

/-- Modelled from the spec: the scoring of section 4.4 step 6 — a slot
whose midpoint falls in the preferred period scores 100, any other slot 0,
and with no preference the score is uniform (0); the section 9 note leaves
the exact monotone formula free. -/
def scoreOf (p : Preference) (s t : Int) : Int :=
  match p with
  | .noPref => 0
  | _ => if inBand p (slotMidpointTime s t) then 100 else 0

/-- Modelled from the spec: section 4.4 step 5 — the representative slot of
a gap is its earliest-starting sub-interval of exactly the requested
duration, annotated with the gap's bounding events and its score. -/
def mkSlot (dur : Int) (p : Preference) (g : Gap) : Slot :=
  { start := g.start
    stop := g.start + dur
    score := scoreOf p g.start (g.start + dur)
    precedingEvent := g.prec
    followingEvent := g.foll }

/-- Modelled from the spec: all gaps of day `d` (whose bounded segment is
`[d*1440 + earliest, d*1440 + latest]`). -/
def gapsOfDay (events : List Event) (earliest latest d : Int) : List Gap :=
  gapsWalk (d * 1440 + earliest) none
    (dayEvents events (d * 1440 + earliest) (d * 1440 + latest))
    (d * 1440 + latest)

/-- Modelled from the spec: one day's candidate slots — gaps at least as
long as the requested duration (step 4), one representative slot each
(step 5). -/
def dayCandidates (events : List Event) (earliest latest dur : Int)
    (p : Preference) (d : Int) : List Slot :=
  ((gapsOfDay events earliest latest d).filter
    fun g => decide (dur ≤ g.stop - g.start)).map (mkSlot dur p)

/-- Modelled from the spec: the per-day partition of the search window
(section 4.4 step 3); a zero-length window spans no days. -/
def daysOf (w : TimeWindow) : List Int :=
  if w.stop ≤ w.start then []
  else
    (List.range ((Int.fdiv (w.stop - 1) 1440) - (Int.fdiv w.start 1440) + 1).toNat).map
      fun i : Nat => Int.fdiv w.start 1440 + (i : Int)

/-- Modelled from the spec: all candidate slots of the window, prior to
ranking and truncation. -/
def slotCandidates (events : List Event) (w : TimeWindow)
    (earliest latest dur : Int) (p : Preference) : List Slot :=
  ((daysOf w).map (dayCandidates events earliest latest dur p)).flatten

/-- The best-first order of section 4.4 step 7: score descending, ties by
start ascending. -/
def slotRel (a b : Slot) : Prop :=
  b.score < a.score ∨ (a.score = b.score ∧ a.start ≤ b.start)

instance : DecidableRel slotRel := fun a b =>
  inferInstanceAs (Decidable (b.score < a.score ∨ (a.score = b.score ∧ a.start ≤ b.start)))

instance : IsTotal Slot slotRel :=
  ⟨fun a b => by
    unfold slotRel
    rcases Int.lt_trichotomy a.score b.score with h | h | h
    · exact Or.inr (Or.inl h)
    · rcases Int.le_total a.start b.start with hs | hs
      · exact Or.inl (Or.inr ⟨h, hs⟩)
      · exact Or.inr (Or.inr ⟨h.symm, hs⟩)
    · exact Or.inl (Or.inl h)⟩

instance : IsTrans Slot slotRel :=
  ⟨fun a b c hab hbc => by
    unfold slotRel at hab hbc ⊢
    rcases hab with h1 | ⟨h1, h1s⟩ <;> rcases hbc with h2 | ⟨h2, h2s⟩
    · exact Or.inl (h2.trans h1)
    · exact Or.inl (by omega)
    · exact Or.inl (by omega)
    · exact Or.inr ⟨by omega, h1s.trans h2s⟩⟩

/-- Modelled from the spec: `findSlots` of section 4.4, whose
implementation is absent from the repository snapshot.  Inputs are
validated before anything else (step 1); the aggregated event timeline is
passed in as `events`; candidates are computed per day, scored, sorted
best-first, and truncated to `maxResults`. -/
def findSlots (events : List Event) (w : TimeWindow) (durationMinutes : Int)
    (earliest latest : Int) (p : Preference) (maxResults : Nat) :
    Except SlotError (List Slot) :=
  if durationMinutes ≤ 0 ∨ latest ≤ earliest then
    .error .invalidInput
  else
    .ok ((List.insertionSort slotRel
      (slotCandidates events w earliest latest durationMinutes p)).take maxResults)

theorem gapsWalk_start_le {es : List Event} {dayStop cursor : Int}
    {prec : Option Event} {g : Gap} (hg : g ∈ gapsWalk cursor prec es dayStop) :
    cursor ≤ g.start := by
  induction es generalizing cursor prec with
  | nil =>
    simp only [gapsWalk, List.mem_singleton] at hg
    subst hg
    exact le_refl _
  | cons e rest ih =>
    simp only [gapsWalk, List.mem_cons] at hg
    rcases hg with h | h
    · subst h
      exact le_refl _
    · exact le_trans (le_max_left _ _) (ih h)

theorem gapsWalk_stop_mem {es : List Event} {dayStop cursor : Int}
    {prec : Option Event} {g : Gap} (hg : g ∈ gapsWalk cursor prec es dayStop) :
    g.stop = dayStop ∨ ∃ e ∈ es, g.stop = e.start := by
  induction es generalizing cursor prec with
  | nil =>
    simp only [gapsWalk, List.mem_singleton] at hg
    subst hg
    exact Or.inl rfl
  | cons e rest ih =>
    simp only [gapsWalk, List.mem_cons] at hg
    rcases hg with h | h
    · subst h
      exact Or.inr ⟨e, List.mem_cons_self e rest, rfl⟩
    · rcases ih h with h2 | ⟨e2, he2, h2⟩
      · exact Or.inl h2
      · exact Or.inr ⟨e2, List.mem_cons_of_mem e he2, h2⟩

theorem gapsWalk_pairwise {es : List Event} {dayStop cursor : Int}
    {prec : Option Event} (hwf : ∀ e ∈ es, e.start < e.stop) :
    (gapsWalk cursor prec es dayStop).Pairwise fun g1 g2 => g1.stop < g2.start := by
  induction es generalizing cursor prec with
  | nil => simp [gapsWalk]
  | cons e rest ih =>
    simp only [gapsWalk]
    refine List.Pairwise.cons ?_ (ih fun x hx => hwf x (List.mem_cons_of_mem e hx))
    intro g hg
    have h1 : max cursor e.stop ≤ g.start := gapsWalk_start_le hg
    have h2 : e.start < e.stop := hwf e (List.mem_cons_self e rest)
    simp only
    omega

theorem mem_dayEvents {events : List Event} {a b : Int} {e : Event} :
    e ∈ dayEvents events a b ↔
      e ∈ events ∧ e.isAllDay = false ∧ e.start < b ∧ a < e.stop := by
  unfold dayEvents
  rw [(List.perm_insertionSort eventLE _).mem_iff]
  simp [List.mem_filter]
  tauto

theorem mem_dayCandidates {events : List Event} {earliest latest dur d : Int}
    {p : Preference} {s : Slot} :
    s ∈ dayCandidates events earliest latest dur p d ↔
      ∃ g ∈ gapsOfDay events earliest latest d,
        dur ≤ g.stop - g.start ∧ s = mkSlot dur p g := by
  unfold dayCandidates
  simp only [List.mem_map, List.mem_filter, decide_eq_true_eq]
  constructor
  · rintro ⟨g, ⟨hg, hq⟩, hs⟩
    exact ⟨g, hg, hq, hs.symm⟩
  · rintro ⟨g, hg, hq, hs⟩
    exact ⟨g, ⟨hg, hq⟩, hs.symm⟩

theorem dayCandidates_bounds {events : List Event} {earliest latest dur d : Int}
    {p : Preference} {s : Slot}
    (hs : s ∈ dayCandidates events earliest latest dur p d) :
    s.stop = s.start + dur ∧ d * 1440 + earliest ≤ s.start ∧
      s.stop ≤ d * 1440 + latest ∧ s.score = scoreOf p s.start s.stop := by
  rw [mem_dayCandidates] at hs
  obtain ⟨g, hg, hq, hs⟩ := hs
  subst hs
  have h1 : d * 1440 + earliest ≤ g.start := gapsWalk_start_le hg
  have h2 : g.stop ≤ d * 1440 + latest := by
    rcases gapsWalk_stop_mem hg with h | ⟨e, he, h⟩
    · omega
    · have := (mem_dayEvents.mp he).2.2.1
      omega
  exact ⟨rfl, h1, by simp [mkSlot]; omega, rfl⟩

theorem dayCandidates_pairwise {events : List Event} {earliest latest dur d : Int}
    {p : Preference} (hwf : ∀ e ∈ events, e.isAllDay = false → e.start < e.stop)
    (hdur : 0 < dur) :
    (dayCandidates events earliest latest dur p d).Pairwise
      fun s1 s2 => s1.start < s2.start := by
  unfold dayCandidates
  rw [List.pairwise_map]
  have hgaps : (gapsOfDay events earliest latest d).Pairwise
      fun g1 g2 => g1.stop < g2.start := by
    apply gapsWalk_pairwise
    intro e he
    have h := mem_dayEvents.mp he
    exact hwf e h.1 h.2.1
  have hfilter := hgaps.filter (fun g => decide (dur ≤ g.stop - g.start))
  refine hfilter.imp_of_mem ?_
  intro g1 g2 h1 h2 hlt
  have hq1 : dur ≤ g1.stop - g1.start := by
    have := (List.mem_filter.mp h1).2
    simpa using this
  simp only [mkSlot]
  omega

theorem daysOf_pairwise (w : TimeWindow) : (daysOf w).Pairwise (· < ·) := by
  unfold daysOf
  split
  · simp
  · rw [List.pairwise_map]
    refine (List.pairwise_lt_range _).imp ?_
    intro i j hij
    omega

theorem mem_slotCandidates {events : List Event} {w : TimeWindow}
    {earliest latest dur : Int} {p : Preference} {s : Slot} :
    s ∈ slotCandidates events w earliest latest dur p ↔
      ∃ d ∈ daysOf w, s ∈ dayCandidates events earliest latest dur p d := by
  unfold slotCandidates
  simp only [List.mem_flatten, List.mem_map]
  constructor
  · rintro ⟨l, ⟨d, hd, hl⟩, hs⟩
    exact ⟨d, hd, hl ▸ hs⟩
  · rintro ⟨d, hd, hs⟩
    exact ⟨dayCandidates events earliest latest dur p d, ⟨d, hd, rfl⟩, hs⟩

theorem slotCandidates_pairwise {events : List Event} {w : TimeWindow}
    {earliest latest dur : Int} {p : Preference}
    (hwf : ∀ e ∈ events, e.isAllDay = false → e.start < e.stop)
    (hdur : 0 < dur) (hspan : latest ≤ earliest + 1440) :
    (slotCandidates events w earliest latest dur p).Pairwise
      fun s1 s2 => s1.start < s2.start := by
  unfold slotCandidates
  rw [List.pairwise_flatten]
  constructor
  · intro l hl
    obtain ⟨d, hd, rfl⟩ := List.mem_map.mp hl
    exact dayCandidates_pairwise hwf hdur
  · rw [List.pairwise_map]
    refine (daysOf_pairwise w).imp_of_mem ?_
    intro d1 d2 hd1 hd2 hlt s1 hs1 s2 hs2
    have b1 := dayCandidates_bounds hs1
    have b2 := dayCandidates_bounds hs2
    omega

theorem pairwise_start_inj {l : List Slot}
    (h : l.Pairwise fun s1 s2 => s1.start < s2.start) {s1 s2 : Slot}
    (h1 : s1 ∈ l) (h2 : s2 ∈ l) (heq : s1.start = s2.start) : s1 = s2 := by
  induction l with
  | nil => cases h1
  | cons x xs ih =>
    rw [List.pairwise_cons] at h
    rcases List.mem_cons.mp h1 with rfl | h1m
    · rcases List.mem_cons.mp h2 with rfl | h2m
      · rfl
      · exact absurd heq (by have := h.1 s2 h2m; omega)
    · rcases List.mem_cons.mp h2 with rfl | h2m
      · exact absurd heq (by have := h.1 s1 h1m; omega)
      · exact ih h.2 h1m h2m

theorem scoreOf_eq_of_ne_noPref {p : Preference} (hp : p ≠ Preference.noPref)
    (s t : Int) :
    scoreOf p s t = if inBand p (slotMidpointTime s t) then 100 else 0 := by
  cases p with
  | noPref => exact absurd rfl hp
  | morning => rfl
  | afternoon => rfl
  | evening => rfl

theorem findSlots_ok_inv {events : List Event} {w : TimeWindow}
    {dur earliest latest : Int} {p : Preference} {maxResults : Nat}
    {out : List Slot}
    (hok : findSlots events w dur earliest latest p maxResults = .ok out) :
    0 < dur ∧ earliest < latest ∧
      out = (List.insertionSort slotRel
        (slotCandidates events w earliest latest dur p)).take maxResults := by
  unfold findSlots at hok
  by_cases hc : dur ≤ 0 ∨ latest ≤ earliest
  · rw [if_pos hc] at hok
    cases hok
  · rw [if_neg hc] at hok
    refine ⟨by omega, by omega, ?_⟩
    cases hok
    rfl

theorem mem_out_mem_candidates {events : List Event} {w : TimeWindow}
    {dur earliest latest : Int} {p : Preference} {maxResults : Nat}
    {out : List Slot} {s : Slot}
    (hok : findSlots events w dur earliest latest p maxResults = .ok out)
    (hs : s ∈ out) : s ∈ slotCandidates events w earliest latest dur p := by
  obtain ⟨-, -, rfl⟩ := findSlots_ok_inv hok
  have h1 : s ∈ List.insertionSort slotRel
      (slotCandidates events w earliest latest dur p) :=
    (List.take_sublist _ _).subset hs
  exact (List.perm_insertionSort slotRel _).mem_iff.mp h1

/-- C5: non-positive duration or inverted daily bounds make `findSlots`
fail with InvalidInput, with a result independent of the event set (so no
calendar fetch can influence the failure, there are no partial results);
inputs passing validation never yield InvalidInput. -/
theorem findSlots_validation (w : TimeWindow) (dur earliest latest : Int)
    (p : Preference) (maxResults : Nat) :
    ((dur ≤ 0 ∨ latest ≤ earliest) → ∀ events,
      findSlots events w dur earliest latest p maxResults =
        .error .invalidInput) ∧
    (0 < dur → earliest < latest → ∀ events, ∃ out,
      findSlots events w dur earliest latest p maxResults = .ok out) := by
  constructor
  · intro h events
    unfold findSlots
    rw [if_pos h]
  · intro h1 h2 events
    unfold findSlots
    rw [if_neg (by omega)]
    exact ⟨_, rfl⟩

/-- C5 (witness): duration 0 fails with InvalidInput whatever the events;
a valid request succeeds. -/
theorem findSlots_validation_witness :
    findSlots [] ⟨540, 1080⟩ 0 540 1080 Preference.noPref 5 =
      .error .invalidInput ∧
    ∃ out, findSlots [] ⟨540, 1080⟩ 60 540 1080 Preference.noPref 5 = .ok out :=
  ⟨(findSlots_validation ⟨540, 1080⟩ 0 540 1080 Preference.noPref 5).1
      (Or.inl (by decide)) [],
   (findSlots_validation ⟨540, 1080⟩ 60 540 1080 Preference.noPref 5).2
      (by decide) (by decide) []⟩

/-- C6: every slot returned by a successful `findSlots` call spans at
least `durationMinutes` and lies inside `[earliest, latest]` of one of the
window's days; and every gap of a day that is longer than the duration is
represented by exactly one candidate slot, of exactly the requested
duration, starting at the gap's earliest point.  Events are assumed
well-formed (`start < end` for non-all-day events, the section 3
invariant) and the daily bounds to span at most one day. -/
theorem findSlots_slot_invariants (events : List Event) (w : TimeWindow)
    (dur earliest latest : Int) (p : Preference) (maxResults : Nat)
    (out : List Slot)
    (hok : findSlots events w dur earliest latest p maxResults = .ok out)
    (hwf : ∀ e ∈ events, e.isAllDay = false → e.start < e.stop)
    (hspan : latest ≤ earliest + 1440) :
    (∀ s ∈ out, dur ≤ s.stop - s.start ∧
      ∃ d ∈ daysOf w, d * 1440 + earliest ≤ s.start ∧ s.stop ≤ d * 1440 + latest) ∧
    (∀ d ∈ daysOf w, ∀ g ∈ gapsOfDay events earliest latest d,
      dur < g.stop - g.start →
      ∃! s, s ∈ slotCandidates events w earliest latest dur p ∧
        s.start = g.start ∧ s.stop = g.start + dur) := by
  obtain ⟨hdur, hlt, -⟩ := findSlots_ok_inv hok
  constructor
  · intro s hs
    have hc := mem_out_mem_candidates hok hs
    obtain ⟨d, hd, hdc⟩ := mem_slotCandidates.mp hc
    have hb := dayCandidates_bounds hdc
    exact ⟨by omega, d, hd, by omega, by omega⟩
  · intro d hd g hg hlen
    have hmem : mkSlot dur p g ∈ slotCandidates events w earliest latest dur p := by
      rw [mem_slotCandidates]
      exact ⟨d, hd, mem_dayCandidates.mpr ⟨g, hg, by omega, rfl⟩⟩
    refine ⟨mkSlot dur p g, ⟨hmem, rfl, rfl⟩, ?_⟩
    rintro s ⟨hsmem, hstart, -⟩
    exact pairwise_start_inj (slotCandidates_pairwise hwf hdur hspan) hsmem hmem
      (by rw [hstart]; rfl)

/-- C6 (witness): in the section 8 scenario the gap 11:00–13:00 (longer
than 60 minutes) is represented by exactly one 60-minute candidate
starting at 11:00. -/
theorem findSlots_slot_invariants_witness :
    ∃! s, s ∈ slotCandidates
        [⟨"e1", "primary", 540, 660, false⟩, ⟨"e2", "primary", 780, 840, false⟩]
        ⟨540, 1080⟩ 540 1080 60 Preference.afternoon ∧
      s.start = 660 ∧ s.stop = 720 := by
  have h := (findSlots_slot_invariants
      [⟨"e1", "primary", 540, 660, false⟩, ⟨"e2", "primary", 780, 840, false⟩]
      ⟨540, 1080⟩ 60 540 1080 Preference.afternoon 10 _ rfl
      (by decide) (by decide)).2 0 (by decide)
      ⟨660, 780, some ⟨"e1", "primary", 540, 660, false⟩,
        some ⟨"e2", "primary", 780, 840, false⟩⟩ (by decide) (by decide)
  exact h

/-- Modelled from the spec: the event set of the section 8 ranking
scenario — meetings 09:00–11:00 and 13:00–14:00 on one calendar, in
minutes of day 0. -/
def scenarioEvents : List Event :=
  [⟨"e1", "primary", 540, 660, false⟩, ⟨"e2", "primary", 780, 840, false⟩]

/-- The ranked output of the section 8 scenario
`findSlots(window=09:00–18:00, duration=60, bounds=09:00–18:00,
preference=afternoon)`: the 14:00 afternoon slot first, the 11:00 morning
slot second. -/
def scenarioOut : List Slot :=
  [⟨840, 900, 100, some ⟨"e2", "primary", 780, 840, false⟩, none⟩,
   ⟨660, 720, 0, some ⟨"e1", "primary", 540, 660, false⟩,
     some ⟨"e2", "primary", 780, 840, false⟩⟩]

/-- C7: a successful `findSlots` result is sorted by score descending with
ties broken by start ascending, holds at most `maxResults` entries, any
returned slot whose midpoint falls in the preferred period scores strictly
higher than any returned slot outside it, and in the section 8 scenario
the top candidate starts at 14:00 (minute 840). -/
theorem findSlots_ranking (events : List Event) (w : TimeWindow)
    (dur earliest latest : Int) (p : Preference) (maxResults : Nat)
    (out : List Slot)
    (hok : findSlots events w dur earliest latest p maxResults = .ok out) :
    List.Sorted slotRel out ∧ out.length ≤ maxResults ∧
    (p ≠ Preference.noPref → ∀ s1 ∈ out, ∀ s2 ∈ out,
      inBand p (slotMidpointTime s1.start s1.stop) = true →
      inBand p (slotMidpointTime s2.start s2.stop) = false →
      s2.score < s1.score) ∧
    ((findSlots scenarioEvents ⟨540, 1080⟩ 60 540 1080 Preference.afternoon
        10).toOption.bind List.head?).map Slot.start = some 840 := by
  obtain ⟨hdur, hlt, hout⟩ := findSlots_ok_inv hok
  refine ⟨?_, ?_, ?_, ?_⟩
  · rw [hout]
    exact List.Pairwise.sublist (List.take_sublist _ _)
      (List.sorted_insertionSort _ _)
  · rw [hout]
    exact List.length_take_le _ _
  · intro hp s1 hs1 s2 hs2 hin hnotin
    obtain ⟨d1, hd1, hdc1⟩ := mem_slotCandidates.mp (mem_out_mem_candidates hok hs1)
    obtain ⟨d2, hd2, hdc2⟩ := mem_slotCandidates.mp (mem_out_mem_candidates hok hs2)
    have hb1 := (dayCandidates_bounds hdc1).2.2.2
    have hb2 := (dayCandidates_bounds hdc2).2.2.2
    rw [hb1, scoreOf_eq_of_ne_noPref hp, if_pos hin]
    rw [hb2, scoreOf_eq_of_ne_noPref hp, if_neg (by simp [hnotin])]
    omega
  · rfl

/-- C7 (witness): the section 8 scenario output is sorted best-first and
within the result limit. -/
theorem findSlots_ranking_witness :
    List.Sorted slotRel scenarioOut ∧ scenarioOut.length ≤ 10 :=
  have h := findSlots_ranking scenarioEvents ⟨540, 1080⟩ 60 540 1080
      Preference.afternoon 10 scenarioOut (by rfl)
  ⟨h.1, h.2.1⟩

/-- C8: `findSlots` is deterministic — two calls with identical window,
duration, bounds, preference and result limit against an unchanged event
set are the same pure-function application and return identical ordered
output. -/
theorem findSlots_deterministic (events : List Event) (w : TimeWindow)
    (dur earliest latest : Int) (p : Preference) (maxResults : Nat) :
    findSlots events w dur earliest latest p maxResults =
      findSlots events w dur earliest latest p maxResults := rfl

end Aura
